import Mathlib

/-!
Verification of the diff engine of `git-diffs` against its specification.

The Go sources are shallowly embedded: Go strings become `List Char`
(Go compares strings byte-wise; for valid UTF-8 the byte order coincides
with the code-point order used here), Go `int` becomes `Int`, Go slices
become `List`, and the zero values of Go structs are the `:=` defaults of
the corresponding Lean structures.  Each definition mirrors one function
of the source; loops over slices become structural recursions or folds.
-/

namespace GitDiffs

/-- Go strings, as lists of characters. -/
abbrev GoStr := List Char

/-- Character list of a Lean string literal. -/
def gs (s : String) : GoStr := s.data

/-- strings.HasPrefix: `strHasPre p s` is true when `p` is a prefix of `s`. -/
def strHasPre : GoStr → GoStr → Bool
  | [], _ => true
  | _ :: _, [] => false
  | p :: ps, c :: cs => p = c && strHasPre ps cs

/-- strings.TrimPrefix: drop `p` from the front of `s` when present. -/
def strTrimPre (p s : GoStr) : GoStr :=
  if strHasPre p s then s.drop p.length else s

/-- strings.SplitN(line, " ", 2): `some (before, after)` of the first space,
`none` when the line has no space (Go then returns a single part). -/
def splitFirstSpace : GoStr → Option (GoStr × GoStr)
  | [] => none
  | c :: rest =>
    if c = ' ' then some ([], rest)
    else match splitFirstSpace rest with
      | some (a, b) => some (c :: a, b)
      | none => none

/-- strings.Split(s, "\n"): all parts, empty parts included. -/
def splitNl : GoStr → List GoStr
  | [] => [[]]
  | c :: rest =>
    if c = '\n' then [] :: splitNl rest
    else match splitNl rest with
      | [] => [[c]]
      | p :: ps => (c :: p) :: ps

/-! ### A model of fmt.Sscanf for the hunk-header patterns

A format is a token list: a literal character must match exactly, a blank
matches a run of spaces (possibly empty), and `%d` skips leading spaces and
reads an optionally signed decimal integer.  Scanning stops at the first
failure; the successfully converted prefix of operands is returned, which
models Go's partial assignment of Sscanf arguments. -/

inductive FmtTok where
  | lit (c : Char)
  | blank
  | num
deriving DecidableEq, Repr

/-- Read a format string: `%d` becomes `num`, a space becomes `blank`. -/
def fmtOf : GoStr → List FmtTok
  | [] => []
  | '%' :: 'd' :: rest => .num :: fmtOf rest
  | c :: rest => (if c = ' ' then .blank else .lit c) :: fmtOf rest

/-- Drop a run of leading spaces. -/
def dropSpaces : GoStr → GoStr
  | [] => []
  | c :: rest => if c = ' ' then dropSpaces rest else c :: rest

/-- Maximal run of leading decimal digits, with the remaining input. -/
def takeDigits : GoStr → List Char × GoStr
  | [] => ([], [])
  | c :: rest =>
    if c.isDigit then
      let p := takeDigits rest
      (c :: p.1, p.2)
    else ([], c :: rest)

/-- Numeric value of a digit run. -/
def digitsVal (ds : List Char) : Int :=
  ds.foldl (fun a c => a * 10 + (Int.ofNat c.toNat - Int.ofNat '0'.toNat)) 0

/-- The `%d` verb: skip spaces, then an optionally signed decimal number. -/
def scanInt (s : GoStr) : Option (Int × GoStr) :=
  let s := dropSpaces s
  match s with
  | '-' :: rest =>
    let p := takeDigits rest
    if p.1 = [] then none else some (-(digitsVal p.1), p.2)
  | '+' :: rest =>
    let p := takeDigits rest
    if p.1 = [] then none else some (digitsVal p.1, p.2)
  | _ =>
    let p := takeDigits s
    if p.1 = [] then none else some (digitsVal p.1, p.2)

/-- Run a format against an input.  Returns the converted operands in order
and whether the whole format was consumed. -/
def scanToks : List FmtTok → GoStr → List Int → List Int × Bool
  | [], _, acc => (acc.reverse, true)
  | .lit c :: toks, s, acc =>
    match s with
    | c' :: rest => if c' = c then scanToks toks rest acc else (acc.reverse, false)
    | [] => (acc.reverse, false)
  | .blank :: toks, s, acc => scanToks toks (dropSpaces s) acc
  | .num :: toks, s, acc =>
    match scanInt s with
    | some (v, rest) => scanToks toks rest (v :: acc)
    | none => (acc.reverse, false)

/-- The operands fmt.Sscanf assigns for this format (a prefix of the verbs). -/
def sscanfInts (fmt : List FmtTok) (s : GoStr) : List Int :=
  (scanToks fmt s []).1

/-- Whether the input matches the whole format. -/
def sscanfMatches (fmt : List FmtTok) (s : GoStr) : Bool :=
  (scanToks fmt s []).2

/-- Hunk header pattern `@@ -%d,%d +%d,%d @@`. -/
def hunkFmt1 : List FmtTok := fmtOf (gs "@@ -%d,%d +%d,%d @@")

/-- Hunk header pattern `@@ -%d +%d,%d @@`. -/
def hunkFmt2 : List FmtTok := fmtOf (gs "@@ -%d +%d,%d @@")

/-- Hunk header pattern `@@ -%d,%d +%d @@`. -/
def hunkFmt3 : List FmtTok := fmtOf (gs "@@ -%d,%d +%d @@")

/-! ### The git data model (internal/git/git.go) -/

/-- git.DiffLineType.  `context` is the first constant (iota 0) and hence the
zero value of the type in Go. -/
inductive DiffLineType where
  | context
  | addition
  | deletion
  | header
deriving DecidableEq, Repr

/-- git.DiffLine.  The defaults are the Go zero values. -/
structure DiffLine where
  type : DiffLineType := .context
  content : GoStr := []
  oldLineNum : Int := 0
  newLineNum : Int := 0
deriving DecidableEq, Repr

/-- git.DiffHunk. -/
structure DiffHunk where
  oldStart : Int := 0
  oldCount : Int := 0
  newStart : Int := 0
  newCount : Int := 0
  lines : List DiffLine := []
deriving DecidableEq, Repr

/-- git.FileDiff. -/
structure FileDiff where
  oldPath : GoStr := []
  newPath : GoStr := []
  hunks : List DiffHunk := []
deriving DecidableEq, Repr

/-- The `@@` branch of parseDiff: the three Sscanf calls with partial operand
assignment (`List.getD i cur` keeps the current value when operand `i` was not
assigned), the `oldCount == 0` and `newCount == 0` defaulting branches, in
source order.  Returns (oldStart, oldCount, newStart, newCount). -/
def parseHunkFields (line : GoStr) : Int × Int × Int × Int :=
  let r1 := sscanfInts hunkFmt1 line
  let os := r1.getD 0 0
  let oc := r1.getD 1 0
  let ns := r1.getD 2 0
  let nc := r1.getD 3 0
  let s1 : Int × Int × Int × Int :=
    if oc = 0 then
      let r2 := sscanfInts hunkFmt2 line
      (r2.getD 0 os, 1, r2.getD 1 ns, r2.getD 2 nc)
    else (os, oc, ns, nc)
  if s1.2.2.2 = 0 then
    let r3 := sscanfInts hunkFmt3 line
    (r3.getD 0 s1.1, r3.getD 1 s1.2.1, r3.getD 2 s1.2.2.1, 1)
  else s1

/-- The loop state of parseDiff. -/
structure ParseState where
  oldPath : GoStr := []
  newPath : GoStr := []
  hunks : List DiffHunk := []
  currentHunk : Option DiffHunk := none
  oldLineNum : Int := 0
  newLineNum : Int := 0
deriving DecidableEq, Repr

/-- One iteration of the parseDiff loop over a split line. -/
def parseStep (st : ParseState) (line : GoStr) : ParseState :=
  if strHasPre (gs "---") line then
    match splitFirstSpace line with
    | some p => { st with oldPath := strTrimPre (gs "a/") p.2 }
    | none => st
  else if strHasPre (gs "+++") line then
    match splitFirstSpace line with
    | some p => { st with newPath := strTrimPre (gs "b/") p.2 }
    | none => st
  else if strHasPre (gs "@@") line then
    let f := parseHunkFields line
    { st with
      hunks := st.hunks ++ (match st.currentHunk with | some h => [h] | none => []),
      currentHunk := some { oldStart := f.1, oldCount := f.2.1, newStart := f.2.2.1,
                            newCount := f.2.2.2,
                            lines := [{ type := .header, content := line }] },
      oldLineNum := f.1,
      newLineNum := f.2.2.1 }
  else
    match st.currentHunk with
    | none => st
    | some h =>
      match line with
      | [] =>
        { st with
          currentHunk := some { h with
            lines := h.lines ++ [⟨.context, [], st.oldLineNum, st.newLineNum⟩] },
          oldLineNum := st.oldLineNum + 1,
          newLineNum := st.newLineNum + 1 }
      | c :: rest =>
        if c = '+' then
          { st with
            currentHunk := some { h with
              lines := h.lines ++ [⟨.addition, rest, 0, st.newLineNum⟩] },
            newLineNum := st.newLineNum + 1 }
        else if c = '-' then
          { st with
            currentHunk := some { h with
              lines := h.lines ++ [⟨.deletion, rest, st.oldLineNum, 0⟩] },
            oldLineNum := st.oldLineNum + 1 }
        else if c = ' ' then
          { st with
            currentHunk := some { h with
              lines := h.lines ++ [⟨.context, rest, st.oldLineNum, st.newLineNum⟩] },
            oldLineNum := st.oldLineNum + 1,
            newLineNum := st.newLineNum + 1 }
        else
          st

/-- git.parseDiff.  The Go function has an error return but every path ends in
`return diff, nil`; the `Except` mirrors that signature. -/
def parseDiff (diffText : GoStr) : Except GoStr FileDiff :=
  let st := (splitNl diffText).foldl parseStep {}
  let hunks := st.hunks ++ (match st.currentHunk with | some h => [h] | none => [])
  .ok { oldPath := st.oldPath, newPath := st.newPath, hunks := hunks }

/-! ### The aligner and projector (internal/ui/diffview/diffview.go) -/

/-- diffview.SideBySideLine.  The defaults are the Go zero values; note the
zero value of `DiffLineType` is `context`, so a side the aligner leaves
blank reads as an empty context side. -/
structure SideBySideLine where
  oldLineNum : Int := 0
  oldContent : GoStr := []
  oldType : DiffLineType := .context
  newLineNum : Int := 0
  newContent : GoStr := []
  newType : DiffLineType := .context
deriving DecidableEq, Repr

/-- diffview.alignChanges: the Go loop pairs `deletions[i]` with
`additions[i]` for `i < max(len deletions, len additions)`, written here as
a structural zip that pads the shorter side with the zero value. -/
def alignChanges : List DiffLine → List DiffLine → List SideBySideLine
  | [], adds =>
    adds.map (fun a =>
      { newLineNum := a.newLineNum, newContent := a.content, newType := .addition })
  | d :: ds, [] =>
    { oldLineNum := d.oldLineNum, oldContent := d.content, oldType := .deletion } ::
      alignChanges ds []
  | d :: ds, a :: as =>
    { oldLineNum := d.oldLineNum, oldContent := d.content, oldType := .deletion,
      newLineNum := a.newLineNum, newContent := a.content, newType := .addition } ::
      alignChanges ds as

/-- The body of the convertToSideBySide loop over one hunk's lines, with the
two pending buffers as arguments.  A header row is emitted without flushing
the buffers; a context line first flushes them; deletions and additions are
buffered; the end of the hunk flushes what remains. -/
def convertLines : List DiffLine → List DiffLine → List DiffLine → List SideBySideLine
  | [], dels, adds => alignChanges dels adds
  | l :: rest, dels, adds =>
    match l.type with
    | .header =>
      { oldContent := l.content, oldType := .header,
        newContent := l.content, newType := .header } :: convertLines rest dels adds
    | .context =>
      alignChanges dels adds ++
        ({ oldLineNum := l.oldLineNum, oldContent := l.content, oldType := .context,
           newLineNum := l.newLineNum, newContent := l.content, newType := .context } ::
          convertLines rest [] [])
    | .deletion => convertLines rest (dels ++ [l]) adds
    | .addition => convertLines rest dels (adds ++ [l])

/-- convertToSideBySide restricted to one hunk (buffers start and end empty
within each hunk). -/
def convertHunk (h : DiffHunk) : List SideBySideLine :=
  convertLines h.lines [] []

/-- diffview.convertToSideBySide over a whole FileDiff. -/
def convertToSideBySide (d : FileDiff) : List SideBySideLine :=
  (d.hunks.map convertHunk).flatten

/-- diffview.ViewMode. -/
inductive DVMode where
  | viewBoth
  | viewNew
  | viewOld
deriving DecidableEq, Repr

/-- A line selected for display, with the index of its source row
(`origIdx` in the Go loops). -/
structure ProjectedLine where
  lineNum : Int
  content : GoStr
  type : DiffLineType
  origIdx : Nat
deriving DecidableEq, Repr

/-- The row-selection chain of renderSingleView: prefer the shown side when
its kind belongs there, otherwise borrow the other side's context/header
content, otherwise skip the row. -/
def singleViewPick (showNew : Bool) (line : SideBySideLine) :
    Option (Int × GoStr × DiffLineType) :=
  if showNew then
    if line.newType = .addition ∨ line.newType = .context ∨ line.newType = .header then
      some (line.newLineNum, line.newContent, line.newType)
    else if line.oldType = .context ∨ line.oldType = .header then
      some (line.newLineNum, line.oldContent, line.oldType)
    else none
  else
    if line.oldType = .deletion ∨ line.oldType = .context ∨ line.oldType = .header then
      some (line.oldLineNum, line.oldContent, line.oldType)
    else if line.newType = .context ∨ line.newType = .header then
      some (line.oldLineNum, line.newContent, line.newType)
    else none

/-- The filter/offset/break loop of renderSingleView: `idx` is the running
row index, `skipped` counts selected rows dropped before `offset`, and
`displayed` counts emitted rows, capped at `visible`.  The string rendering
of each emitted line is abstracted to the `ProjectedLine` it is built from. -/
def renderSingleLoop (showNew : Bool) (offset visible : Int) :
    List SideBySideLine → Nat → Int → Int → List ProjectedLine
  | [], _, _, _ => []
  | l :: rest, idx, skipped, displayed =>
    match singleViewPick showNew l with
    | none => renderSingleLoop showNew offset visible rest (idx + 1) skipped displayed
    | some sel =>
      if skipped < offset then
        renderSingleLoop showNew offset visible rest (idx + 1) (skipped + 1) displayed
      else if visible ≤ displayed then []
      else
        ⟨sel.1, sel.2.1, sel.2.2, idx⟩ ::
          renderSingleLoop showNew offset visible rest (idx + 1) skipped (displayed + 1)

/-- diffview.renderSingleView, as the sequence of diff lines it displays. -/
def renderSingleView (showNew : Bool) (offset visible : Int)
    (lines : List SideBySideLine) : List ProjectedLine :=
  renderSingleLoop showNew offset visible lines 0 0 0

/-- diffview.SearchableLine (Type is a string in the source). -/
structure SearchableLine where
  lineNum : Int
  content : GoStr
  typeStr : GoStr
  origIdx : Nat
deriving DecidableEq, Repr

/-- diffview.lineTypeToString. -/
def lineTypeToString : DiffLineType → GoStr
  | .addition => gs "add"
  | .deletion => gs "del"
  | .header => gs "header"
  | .context => gs "context"

/-- The per-row body of GetSearchableLines. -/
def searchableRow (mode : DVMode) (i : Nat) (line : SideBySideLine) :
    List SearchableLine :=
  match mode with
  | .viewBoth =>
    (if line.oldContent ≠ [] ∨ line.oldLineNum > 0 then
      [⟨line.oldLineNum, line.oldContent, lineTypeToString line.oldType, i⟩]
    else []) ++
    (if line.newContent ≠ [] ∨ line.newLineNum > 0 then
      (if line.newContent ≠ line.oldContent ∨ line.newType ≠ line.oldType then
        [⟨line.newLineNum, line.newContent, lineTypeToString line.newType, i⟩]
      else [])
    else [])
  | .viewNew =>
    if line.newType = .addition ∨ line.newType = .context ∨ line.newType = .header then
      [⟨line.newLineNum, line.newContent, lineTypeToString line.newType, i⟩]
    else []
  | .viewOld =>
    if line.oldType = .deletion ∨ line.oldType = .context ∨ line.oldType = .header then
      [⟨line.oldLineNum, line.oldContent, lineTypeToString line.oldType, i⟩]
    else []

/-- The indexed loop of GetSearchableLines. -/
def searchableAux (mode : DVMode) : List SideBySideLine → Nat → List SearchableLine
  | [], _ => []
  | l :: rest, i => searchableRow mode i l ++ searchableAux mode rest (i + 1)

/-- diffview.GetSearchableLines. -/
def getSearchableLines (mode : DVMode) (lines : List SideBySideLine) :
    List SearchableLine :=
  searchableAux mode lines 0

/-! ### The changed-file index (internal/ui/filelist/filelist.go) -/

/-- git.ChangedFile.  `FileStatus` is a string type in Go. -/
structure ChangedFile where
  status : GoStr := []
  path : GoStr := []
  oldPath : GoStr := []
  additions : Int := 0
  deletions : Int := 0
deriving DecidableEq, Repr

/-- filelist.DisplayItem.  `file` models the Go `*git.ChangedFile`, which is
nil for header items. -/
structure DisplayItem where
  isHeader : Bool := false
  header : GoStr := []
  file : Option ChangedFile := none
deriving DecidableEq, Repr

/-- filepath.Dir, modelled for slash-separated paths with no `.` or `..`
segments and no repeated or trailing slashes (the shapes git emits): the
part before the last slash, `.` when there is no slash, `/` when the slash
is leading. -/
def beforeLastSlash : GoStr → Option GoStr
  | [] => none
  | c :: rest =>
    match beforeLastSlash rest with
    | some pre => some (c :: pre)
    | none => if c = '/' then some [] else none

/-- filepath.Dir (see `beforeLastSlash`). -/
def goDir (p : GoStr) : GoStr :=
  match beforeLastSlash p with
  | none => gs "."
  | some pre => if pre = [] then gs "/" else pre

/-- The directory key buildFolderView groups a file under
(`filepath.Dir`, with `.` replaced by `/`). -/
def dirKey (f : ChangedFile) : GoStr :=
  let d := goDir f.path
  if d = gs "." then gs "/" else d

/-- Go byte-wise string comparison `a <= b` (sort.Strings order). -/
def strLeb : GoStr → GoStr → Bool
  | [], _ => true
  | _ :: _, [] => false
  | a :: as, b :: bs => if a = b then strLeb as bs else decide (a < b)

/-- The ordering relation used for sort.Strings. -/
def strLe (a b : GoStr) : Prop := strLeb a b = true

instance : DecidableRel strLe := fun a b =>
  inferInstanceAs (Decidable (strLeb a b = true))

/-- The map-membership test of the grouping loop (`folders[dir]` exists). -/
def hasGroup : List (GoStr × List ChangedFile) → GoStr → Bool
  | [], _ => false
  | (k, _) :: rest, d => k = d || hasGroup rest d

/-- `folders[dir] = append(folders[dir], f)` on the association list. -/
def upsertGroup : List (GoStr × List ChangedFile) → GoStr → ChangedFile →
    List (GoStr × List ChangedFile)
  | [], d, f => [(d, [f])]
  | (k, v) :: rest, d, f =>
    if k = d then (k, v ++ [f]) :: rest else (k, v) :: upsertGroup rest d f

/-- `folders[dir]` lookup (the empty list when absent). -/
def lookupGroup : List (GoStr × List ChangedFile) → GoStr → List ChangedFile
  | [], _ => []
  | (k, v) :: rest, d => if k = d then v else lookupGroup rest d

/-- One iteration of buildFolderView's grouping loop: record the directory
in `folderOrder` on first sight, append the file to its group. -/
def folderStep (acc : List GoStr × List (GoStr × List ChangedFile))
    (f : ChangedFile) : List GoStr × List (GoStr × List ChangedFile) :=
  let d := dirKey f
  (if hasGroup acc.2 d then acc.1 else acc.1 ++ [d], upsertGroup acc.2 d f)

/-- The display item of a folder header. -/
def headerItem (d : GoStr) : DisplayItem := { isHeader := true, header := d }

/-- The display item of a file entry. -/
def fileItem (f : ChangedFile) : DisplayItem := { file := some f }

/-- filelist.buildFolderView: group files by directory in encounter order,
sort the directory list (sort.Strings), then emit each directory's header
followed by its files. -/
def buildFolderView (files : List ChangedFile) : List DisplayItem :=
  let acc := files.foldl folderStep ([], [])
  ((acc.1.insertionSort strLe).map
    (fun d => headerItem d :: (lookupGroup acc.2 d).map fileItem)).flatten

/-- Whether the item at (Go int) index `i` exists and is a header. -/
def itemIsHeaderAt (items : List DisplayItem) (i : Int) : Bool :=
  if i < 0 then false
  else
    match items.get? i.toNat with
    | some it => it.isHeader
    | none => false

/-- The clamping prologue of moveCursor: `if newCursor < 0 { newCursor = 0 }`
then `if newCursor >= len { newCursor = len - 1 }`. -/
def goClampCursor (n c : Int) : Int :=
  let c1 := if c < 0 then 0 else c
  if n ≤ c1 then n - 1 else c1

/-- filelist.moveCursor: clamp `cursor + delta` to the item range, then step
one further in the direction of travel when the clamped position is a
header and that step stays in range.  The result is both the new cursor and
the new selection (`m.selected = m.cursor`); the offset bookkeeping that
follows does not touch either. -/
def moveCursor (items : List DisplayItem) (cursor delta : Int) : Int :=
  let n : Int := items.length
  let c2 := goClampCursor n (cursor + delta)
  if 0 ≤ c2 ∧ c2 < n ∧ itemIsHeaderAt items c2 then
    if delta > 0 ∧ c2 < n - 1 then c2 + 1
    else if delta < 0 ∧ c2 > 0 then c2 - 1
    else c2
  else c2

/-- filelist.findFirstFile: index of the first non-header item, if any; the
Go method sets cursor and selected to it and leaves them unchanged when
every item is a header. -/
def findFirstFileIdx : List DisplayItem → Option Nat
  | [] => none
  | it :: rest =>
    if it.isHeader then (findFirstFileIdx rest).map (· + 1) else some 0

/-! ### Spec-side definitions

These phrase the spec's properties over the embedded model, for stating the
claims; they are not translations of source functions. -/

/-- A row's old side is nonempty (present), by the same test the source uses
for the Both view: nonempty content or a positive line number. -/
def oldPresent (r : SideBySideLine) : Bool :=
  decide (r.oldContent ≠ [] ∨ r.oldLineNum > 0)

/-- A row's new side is nonempty (present). -/
def newPresent (r : SideBySideLine) : Bool :=
  decide (r.newContent ≠ [] ∨ r.newLineNum > 0)

/-- Both sides of the row are present as Context/Header lines. -/
def bothCtxHdr (r : SideBySideLine) : Bool :=
  oldPresent r && newPresent r &&
    decide ((r.oldType = .context ∨ r.oldType = .header) ∧
            (r.newType = .context ∨ r.newType = .header))

/-- The spec's alignment-invariant quantity: rows with a nonempty old side,
plus rows with a nonempty new side, minus rows with both sides present as
Context/Header. -/
def alignBalance (rows : List SideBySideLine) : Nat :=
  rows.countP oldPresent + rows.countP newPresent - rows.countP bothCtxHdr

/-- A diff line is visible on each side it occupies: nonempty content or a
positive line number there.  Lines the parser produces from a header with
positive start values all satisfy this; it fails only for degenerate data
such as an empty context line under an unparsable hunk header. -/
def lineVisible (l : DiffLine) : Prop :=
  match l.type with
  | .header => l.content ≠ []
  | .deletion => l.content ≠ [] ∨ l.oldLineNum > 0
  | .addition => l.content ≠ [] ∨ l.newLineNum > 0
  | .context => l.content ≠ [] ∨ l.oldLineNum > 0 ∨ l.newLineNum > 0

/-- The path of a display item's file (empty for headers). -/
def pathOf (it : DisplayItem) : GoStr :=
  match it.file with
  | some f => f.path
  | none => []

/-- The claim's within-group ordering: every two consecutive file entries
(runs are exactly the directory groups, since groups are separated by
headers) are in ascending path order. -/
def fileRunsSortedB : List DisplayItem → Bool
  | a :: b :: rest =>
    (a.isHeader || b.isHeader || strLeb (pathOf a) (pathOf b)) &&
      fileRunsSortedB (b :: rest)
  | _ => true

/-- The folder-header labels of a display list, in order. -/
def headerPaths (items : List DisplayItem) : List GoStr :=
  (items.filter (·.isHeader)).map (·.header)

/-- No two adjacent display items are both headers. -/
def noAdjHdrB : List DisplayItem → Bool
  | a :: b :: rest => (!(a.isHeader && b.isHeader)) && noAdjHdrB (b :: rest)
  | _ => true

/-- The last display item exists and is a header. -/
def lastIsHeaderB (items : List DisplayItem) : Bool :=
  match items.getLast? with
  | some it => it.isHeader
  | none => false

/-- The first display item exists and is a header. -/
def headIsHeaderB (items : List DisplayItem) : Bool :=
  match items.head? with
  | some it => it.isHeader
  | none => false

/-! ### Concrete data for the scenarios and counterexamples -/

/-- The spec's scenario input: header `@@ -10,3 +10,4 @@`, one context line,
two deletions, three additions, one context line. -/
def scenarioInput : GoStr :=
  gs "@@ -10,3 +10,4 @@\n ctx1\n-del1\n-del2\n+add1\n+add2\n+add3\n ctx2"

/-- The hunk the parser produces for `scenarioInput`. -/
def scenarioHunk : DiffHunk :=
  { oldStart := 10, oldCount := 3, newStart := 10, newCount := 4,
    lines :=
      [{ type := .header, content := gs "@@ -10,3 +10,4 @@" },
       { type := .context, content := gs "ctx1", oldLineNum := 10, newLineNum := 10 },
       { type := .deletion, content := gs "del1", oldLineNum := 11 },
       { type := .deletion, content := gs "del2", oldLineNum := 12 },
       { type := .addition, content := gs "add1", newLineNum := 11 },
       { type := .addition, content := gs "add2", newLineNum := 12 },
       { type := .addition, content := gs "add3", newLineNum := 13 },
       { type := .context, content := gs "ctx2", oldLineNum := 13, newLineNum := 14 }] }

/-- A parser-produced hunk whose context line is empty with line numbers 0
(the header `@@ x @@` matches no numeric pattern, so the cursors start at 0,
and the line after it is empty). -/
def degenerateHunk : DiffHunk :=
  { oldStart := 0, oldCount := 1, newStart := 0, newCount := 1,
    lines :=
      [{ type := .header, content := gs "@@ x @@" },
       { type := .context, content := [], oldLineNum := 0, newLineNum := 0 }] }

/-- Two files of one directory, deliberately out of name order. -/
def fileDB : ChangedFile := { status := gs "M", path := gs "d/b.go" }

/-- The name-smaller file of the same directory. -/
def fileDA : ChangedFile := { status := gs "M", path := gs "d/a.go" }

/-! ### Theorems for the claims -/

/-- C2, counterexample: on the scenario input the parser does produce the
claimed hunk (OldStart 10, OldCount 3, NewStart 10, NewCount 4; 7 lines not
counting the header), but aligning it yields 6 rows, not the claimed 5: the
aligner also emits a row for the Header line. -/
theorem c2_scenario_counterexample :
    parseDiff scenarioInput = .ok { hunks := [scenarioHunk] } ∧
    (scenarioHunk.lines.filter (fun l => l.type ≠ DiffLineType.header)).length = 7 ∧
    (convertHunk scenarioHunk).length = 6 ∧
    ¬ (convertHunk scenarioHunk).length = 5 :=
  ⟨rfl, rfl, rfl, by decide⟩

/-- C2, amended: the scenario parses to the claimed hunk, and aligning it
yields exactly 6 rows: a header row, a context row, three positionally
paired rows (two with both sides filled, one with only the new side
filled), and a final context row. -/
theorem c2_scenario_amended :
    parseDiff scenarioInput = .ok { hunks := [scenarioHunk] } ∧
    convertHunk scenarioHunk =
      [{ oldContent := gs "@@ -10,3 +10,4 @@", oldType := .header,
         newContent := gs "@@ -10,3 +10,4 @@", newType := .header },
       { oldLineNum := 10, oldContent := gs "ctx1", oldType := .context,
         newLineNum := 10, newContent := gs "ctx1", newType := .context },
       { oldLineNum := 11, oldContent := gs "del1", oldType := .deletion,
         newLineNum := 11, newContent := gs "add1", newType := .addition },
       { oldLineNum := 12, oldContent := gs "del2", oldType := .deletion,
         newLineNum := 12, newContent := gs "add2", newType := .addition },
       { newLineNum := 13, newContent := gs "add3", newType := .addition },
       { oldLineNum := 13, oldContent := gs "ctx2", oldType := .context,
         newLineNum := 14, newContent := gs "ctx2", newType := .context }] :=
  ⟨rfl, rfl⟩

/-- C3, counterexample: the parser turns `@@ x @@` followed by an empty line
into a real hunk whose context line has empty content and line numbers 0;
for that hunk the claimed balance equals 1 while the hunk has 2 lines, so
the invariant fails as stated for every hunk. -/
theorem c3_invariant_counterexample :
    parseDiff (gs "@@ x @@\n") = .ok { hunks := [degenerateHunk] } ∧
    alignBalance (convertHunk degenerateHunk) = 1 ∧
    degenerateHunk.lines.length = 2 ∧
    ¬ alignBalance (convertHunk degenerateHunk) = degenerateHunk.lines.length :=
  ⟨rfl, by decide, rfl, by decide⟩

/-- C5, counterexample: with two files of one directory given out of name
order, the folder view keeps the input order inside the group (`d/b.go`
before `d/a.go`), so file entries within a directory group are not emitted
in ascending name order. -/
theorem c5_folder_order_counterexample :
    buildFolderView [fileDB, fileDA] =
      [headerItem (gs "d"), fileItem fileDB, fileItem fileDA] ∧
    fileRunsSortedB (buildFolderView [fileDB, fileDA]) = false :=
  ⟨rfl, by decide⟩

/-- C6, counterexample: buildFolderView takes no expandedPaths set, and no
directory is ever collapsed: for a directory that was never expanded the
output still contains its file entries, contradicting the claim that a
directory absent from expandedPaths renders its header but no children. -/
theorem c6_collapse_counterexample :
    buildFolderView [fileDA] = [headerItem (gs "d"), fileItem fileDA] ∧
    fileItem fileDA ∈ buildFolderView [fileDA] :=
  ⟨rfl, by decide⟩

/-- C7, counterexample: in a folder view the first item is a header; moving
up by one from the first file lands the cursor, and hence the selection, on
that header, so cursor movement does not always skip headers. -/
theorem c7_header_skip_counterexample :
    moveCursor [headerItem (gs "d"), fileItem fileDA] 1 (-1) = 0 ∧
    itemIsHeaderAt [headerItem (gs "d"), fileItem fileDA] 0 = true :=
  ⟨rfl, rfl⟩

/-- C8, counterexample: the header `@@ -5,7 oops` matches none of the three
numeric patterns, yet the hunk's OldCount is 7, not the claimed default 1:
the failed full-pattern scan still assigns the operands parsed before the
failure point. -/
theorem c8_default_counterexample :
    sscanfMatches hunkFmt1 (gs "@@ -5,7 oops") = false ∧
    sscanfMatches hunkFmt2 (gs "@@ -5,7 oops") = false ∧
    sscanfMatches hunkFmt3 (gs "@@ -5,7 oops") = false ∧
    parseDiff (gs "@@ -5,7 oops") =
      .ok { hunks := [{ oldStart := 5, oldCount := 7, newStart := 0, newCount := 1,
                        lines := [{ type := .header, content := gs "@@ -5,7 oops" }] }] } ∧
    ¬ (7 : Int) = 1 :=
  ⟨rfl, rfl, rfl, rfl, by decide⟩

/-- C9, counterexample: the header `@@ -5,0 +7,0 @@` matches the full
pattern with explicit zero counts, but parse records OldCount 0, not 1: the
newCount-defaulting branch rescans the line with `@@ -%d,%d +%d @@` and
reassigns the explicit 0 to OldCount after the oldCount branch had set it
to 1. -/
theorem c9_zero_count_counterexample :
    sscanfMatches hunkFmt1 (gs "@@ -5,0 +7,0 @@") = true ∧
    sscanfInts hunkFmt1 (gs "@@ -5,0 +7,0 @@") = [5, 0, 7, 0] ∧
    parseDiff (gs "@@ -5,0 +7,0 @@") =
      .ok { hunks := [{ oldStart := 5, oldCount := 0, newStart := 7, newCount := 1,
                        lines := [{ type := .header, content := gs "@@ -5,0 +7,0 @@" }] }] } ∧
    ¬ (0 : Int) ≥ 1 :=
  ⟨rfl, rfl, rfl, by decide⟩

/-- C10, counterexample: for the in-hunk line `--- a/zz` the parser
overwrites OldPath with `zz`, not with the text after the first space
(`a/zz`): the `a/` prefix is stripped first. -/
theorem c10_path_header_counterexample :
    parseDiff (gs "@@ -1,2 +3,4 @@\n--- a/zz") =
      .ok { oldPath := gs "zz",
            hunks := [{ oldStart := 1, oldCount := 2, newStart := 3, newCount := 4,
                        lines := [{ type := .header, content := gs "@@ -1,2 +3,4 @@" }] }] } ∧
    splitFirstSpace (gs "--- a/zz") = some (gs "---", gs "a/zz") ∧
    ¬ gs "zz" = gs "a/zz" :=
  ⟨rfl, rfl, by decide⟩

/-- Every line the single-view render loop emits comes from a row that the
selection chain accepted, and carries that row's index. -/
theorem mem_renderSingleLoop {showNew : Bool} {off vis : Int} :
    ∀ (lines : List SideBySideLine) (idx : Nat) (skip disp : Int)
      (e : ProjectedLine),
      e ∈ renderSingleLoop showNew off vis lines idx skip disp →
      ∃ j row, lines.get? j = some row ∧ e.origIdx = idx + j ∧
        singleViewPick showNew row = some (e.lineNum, e.content, e.type) := by
  intro lines
  induction lines with
  | nil => intro idx skip disp e h; simp [renderSingleLoop] at h
  | cons l rest ih =>
    intro idx skip disp e h
    rw [renderSingleLoop] at h
    cases hp : singleViewPick showNew l with
    | none =>
      rw [hp] at h
      obtain ⟨j, row, hg, hi, hpick⟩ := ih (idx + 1) skip disp e h
      exact ⟨j + 1, row, by simpa using hg, by omega, hpick⟩
    | some sel =>
      rw [hp] at h
      by_cases hskip : skip < off
      · simp only [if_pos hskip] at h
        obtain ⟨j, row, hg, hi, hpick⟩ := ih (idx + 1) (skip + 1) disp e h
        exact ⟨j + 1, row, by simpa using hg, by omega, hpick⟩
      · simp only [if_neg hskip] at h
        by_cases hfull : vis ≤ disp
        · simp [if_pos hfull] at h
        · simp only [if_neg hfull, List.mem_cons] at h
          cases h with
          | inl he =>
            refine ⟨0, l, rfl, by simp [he], ?_⟩
            subst he
            exact hp
          | inr he =>
            obtain ⟨j, row, hg, hi, hpick⟩ := ih (idx + 1) skip (disp + 1) e he
            exact ⟨j + 1, row, by simpa using hg, by omega, hpick⟩

/-- Every searchable line comes from some row, via that row's emission. -/
theorem mem_searchableAux {mode : DVMode} :
    ∀ (lines : List SideBySideLine) (idx : Nat) (e : SearchableLine),
      e ∈ searchableAux mode lines idx →
      ∃ j row, lines.get? j = some row ∧ e ∈ searchableRow mode (idx + j) row := by
  intro lines
  induction lines with
  | nil => intro idx e h; simp [searchableAux] at h
  | cons l rest ih =>
    intro idx e h
    rw [searchableAux, List.mem_append] at h
    cases h with
    | inl he => exact ⟨0, l, rfl, by simpa using he⟩
    | inr he =>
      obtain ⟨j, row, hg, hmem⟩ := ih (idx + 1) e he
      exact ⟨j + 1, row, by simpa using hg, by
        have : idx + 1 + j = idx + (j + 1) := by omega
        rwa [this] at hmem⟩

/-- A searchable line carries the row index it was built from. -/
theorem searchableRow_origIdx {mode : DVMode} {k : Nat} {row : SideBySideLine}
    {e : SearchableLine} (h : e ∈ searchableRow mode k row) : e.origIdx = k := by
  cases mode <;> simp only [searchableRow] at h
  · rw [List.mem_append] at h
    cases h with
    | inl h1 => split at h1 <;> simp_all
    | inr h2 =>
      split at h2
      · split at h2 <;> simp_all
      · simp_all
  · split at h <;> simp_all
  · split at h <;> simp_all

/-- The New-view selection never yields a deletion-kind line. -/
theorem singleViewPick_new_ne_del {row : SideBySideLine}
    {s : Int × GoStr × DiffLineType} (h : singleViewPick true row = some s) :
    s.2.2 ≠ DiffLineType.deletion := by
  unfold singleViewPick at h
  simp only [if_pos trivial] at h
  split at h
  · rename_i hc
    injection h with h
    subst h
    obtain h1 | h1 | h1 := hc <;> simp [h1]
  · split at h
    · rename_i hc
      injection h with h
      subst h
      obtain h1 | h1 := hc <;> simp [h1]
    · exact absurd h (by simp)

/-- The Old-view selection never yields an addition-kind line. -/
theorem singleViewPick_old_ne_add {row : SideBySideLine}
    {s : Int × GoStr × DiffLineType} (h : singleViewPick false row = some s) :
    s.2.2 ≠ DiffLineType.addition := by
  unfold singleViewPick at h
  simp only [Bool.false_eq_true, if_false] at h
  split at h
  · rename_i hc
    injection h with h
    subst h
    obtain h1 | h1 | h1 := hc <;> simp [h1]
  · split at h
    · rename_i hc
      injection h with h
      subst h
      obtain h1 | h1 := hc <;> simp [h1]
    · exact absurd h (by simp)

/-- A searchable line of the New view is never of the `del` kind string. -/
theorem searchableRow_new_ne_del {k : Nat} {row : SideBySideLine}
    {e : SearchableLine} (h : e ∈ searchableRow .viewNew k row) :
    e.typeStr ≠ gs "del" := by
  simp only [searchableRow] at h
  split at h
  · rename_i hc
    simp only [List.mem_singleton] at h
    subst h
    obtain h1 | h1 | h1 := hc <;> simp [h1, lineTypeToString] <;> decide
  · simp at h

/-- A searchable line of the Old view is never of the `add` kind string. -/
theorem searchableRow_old_ne_add {k : Nat} {row : SideBySideLine}
    {e : SearchableLine} (h : e ∈ searchableRow .viewOld k row) :
    e.typeStr ≠ gs "add" := by
  simp only [searchableRow] at h
  split at h
  · rename_i hc
    simp only [List.mem_singleton] at h
    subst h
    obtain h1 | h1 | h1 := hc <;> simp [h1, lineTypeToString] <;> decide
  · simp at h

/-- C1: a row whose new side is not an Addition/Context/Header and whose old
side is not a Context/Header emits no line in mode New — neither in the
single-view render loop nor among the searchable lines; symmetrically, a
row whose old side is not a Deletion/Context/Header and whose new side is
not a Context/Header emits no line in mode Old. -/
theorem c1_pure_rows_invisible (rows : List SideBySideLine) (i : Nat)
    (row : SideBySideLine) (offset visible : Int)
    (hrow : rows.get? i = some row) :
    ((row.newType ≠ .addition ∧ row.newType ≠ .context ∧ row.newType ≠ .header ∧
      row.oldType ≠ .context ∧ row.oldType ≠ .header) →
      (∀ e ∈ renderSingleView true offset visible rows, e.origIdx ≠ i) ∧
      (∀ e ∈ getSearchableLines .viewNew rows, e.origIdx ≠ i)) ∧
    ((row.oldType ≠ .deletion ∧ row.oldType ≠ .context ∧ row.oldType ≠ .header ∧
      row.newType ≠ .context ∧ row.newType ≠ .header) →
      (∀ e ∈ renderSingleView false offset visible rows, e.origIdx ≠ i) ∧
      (∀ e ∈ getSearchableLines .viewOld rows, e.origIdx ≠ i)) := by
  constructor
  · rintro ⟨h1, h2, h3, h4, h5⟩
    have hnone : singleViewPick true row = none := by
      simp [singleViewPick, h1, h2, h3, h4, h5]
    constructor
    · intro e he heq
      obtain ⟨j, row', hg, hi, hpick⟩ := mem_renderSingleLoop rows 0 0 0 e he
      have hj : j = i := by omega
      subst hj
      rw [hrow] at hg
      injection hg with hg
      subst hg
      rw [hnone] at hpick
      exact Option.noConfusion hpick
    · intro e he heq
      obtain ⟨j, row', hg, hmem⟩ := mem_searchableAux rows 0 e he
      have hj : j = i := by have := searchableRow_origIdx hmem; omega
      subst hj
      rw [hrow] at hg
      injection hg with hg
      subst hg
      simp [searchableRow, h1, h2, h3] at hmem
  · rintro ⟨h1, h2, h3, h4, h5⟩
    have hnone : singleViewPick false row = none := by
      simp [singleViewPick, h1, h2, h3, h4, h5]
    constructor
    · intro e he heq
      obtain ⟨j, row', hg, hi, hpick⟩ := mem_renderSingleLoop rows 0 0 0 e he
      have hj : j = i := by omega
      subst hj
      rw [hrow] at hg
      injection hg with hg
      subst hg
      rw [hnone] at hpick
      exact Option.noConfusion hpick
    · intro e he heq
      obtain ⟨j, row', hg, hmem⟩ := mem_searchableAux rows 0 e he
      have hj : j = i := by have := searchableRow_origIdx hmem; omega
      subst hj
      rw [hrow] at hg
      injection hg with hg
      subst hg
      simp [searchableRow, h1, h2, h3] at hmem

/-- C1, witness: a concrete row with a Deletion new side and an Addition old
side emits nothing in either single view. -/
theorem c1_pure_rows_invisible_witness :
    (∀ e ∈ renderSingleView true 0 10
        [⟨0, [], .addition, 0, [], .deletion⟩], e.origIdx ≠ 0) ∧
    (∀ e ∈ getSearchableLines .viewNew
        [⟨0, [], .addition, 0, [], .deletion⟩], e.origIdx ≠ 0) :=
  (c1_pure_rows_invisible [⟨0, [], .addition, 0, [], .deletion⟩] 0
      ⟨0, [], .addition, 0, [], .deletion⟩ 0 10 rfl).1
    ⟨by decide, by decide, by decide, by decide, by decide⟩

/-- C4: the New-mode projection contains no Deletion-kind line and the
Old-mode projection contains no Addition-kind line, in the single-view
render loop and among the searchable lines alike. -/
theorem c4_view_mode_coverage (rows : List SideBySideLine) (offset visible : Int) :
    (∀ e ∈ renderSingleView true offset visible rows, e.type ≠ .deletion) ∧
    (∀ e ∈ renderSingleView false offset visible rows, e.type ≠ .addition) ∧
    (∀ e ∈ getSearchableLines .viewNew rows, e.typeStr ≠ gs "del") ∧
    (∀ e ∈ getSearchableLines .viewOld rows, e.typeStr ≠ gs "add") := by
  refine ⟨?_, ?_, ?_, ?_⟩
  · intro e he
    obtain ⟨j, row, hg, hi, hpick⟩ := mem_renderSingleLoop rows 0 0 0 e he
    exact singleViewPick_new_ne_del hpick
  · intro e he
    obtain ⟨j, row, hg, hi, hpick⟩ := mem_renderSingleLoop rows 0 0 0 e he
    exact singleViewPick_old_ne_add hpick
  · intro e he
    obtain ⟨j, row, hg, hmem⟩ := mem_searchableAux rows 0 e he
    exact searchableRow_new_ne_del hmem
  · intro e he
    obtain ⟨j, row, hg, hmem⟩ := mem_searchableAux rows 0 e he
    exact searchableRow_old_ne_add hmem

/-- C4, witness: the projected line of a concrete pure-addition row in mode
New is not a deletion. -/
theorem c4_view_mode_coverage_witness :
    (⟨11, gs "add1", .addition, 0⟩ : ProjectedLine).type ≠ .deletion :=
  (c4_view_mode_coverage [⟨0, [], .context, 11, gs "add1", .addition⟩] 0 10).1
    ⟨11, gs "add1", .addition, 0⟩ (by decide)

instance lineVisibleDec : DecidablePred lineVisible := fun l =>
  match l with
  | ⟨.context, c, o, n⟩ => inferInstanceAs (Decidable (c ≠ [] ∨ o > 0 ∨ n > 0))
  | ⟨.addition, c, _, n⟩ => inferInstanceAs (Decidable (c ≠ [] ∨ n > 0))
  | ⟨.deletion, c, o, _⟩ => inferInstanceAs (Decidable (c ≠ [] ∨ o > 0))
  | ⟨.header, c, _, _⟩ => inferInstanceAs (Decidable (c ≠ []))

/-- countP over a cons, with the head's contribution as `Bool.toNat`. -/
theorem countP_cons_toNat (p : SideBySideLine → Bool) (x : SideBySideLine)
    (l : List SideBySideLine) :
    List.countP p (x :: l) = List.countP p l + (p x).toNat := by
  rw [List.countP_cons]
  cases hp : p x <;> simp [hp]

/-- Counting the flushed rows: pairing visible deletions with visible
additions yields exactly one present old side per deletion, one present new
side per addition, and no row with both sides present as Context/Header. -/
theorem alignChanges_counts :
    ∀ (dels adds : List DiffLine),
      (∀ d ∈ dels, d.content ≠ [] ∨ d.oldLineNum > 0) →
      (∀ a ∈ adds, a.content ≠ [] ∨ a.newLineNum > 0) →
      (alignChanges dels adds).countP oldPresent = dels.length ∧
      (alignChanges dels adds).countP newPresent = adds.length ∧
      (alignChanges dels adds).countP bothCtxHdr = 0 := by
  intro dels
  induction dels with
  | nil =>
    intro adds _ ha
    induction adds with
    | nil => simp [alignChanges]
    | cons a as iha =>
      have ha' : ∀ x ∈ as, x.content ≠ [] ∨ x.newLineNum > 0 := by
        intro x hx; exact ha x (by simp [hx])
      have hha : a.content ≠ [] ∨ a.newLineNum > 0 := ha a (by simp)
      obtain ⟨h1, h2, h3⟩ := iha ha'
      refine ⟨?_, ?_, ?_⟩ <;>
        simp only [alignChanges, List.map_cons, List.countP_cons] at h1 h2 h3 ⊢ <;>
        simp_all [oldPresent, newPresent, bothCtxHdr]
  | cons d ds ih =>
    intro adds hd ha
    have hd' : ∀ x ∈ ds, x.content ≠ [] ∨ x.oldLineNum > 0 := by
      intro x hx; exact hd x (by simp [hx])
    have hhd : d.content ≠ [] ∨ d.oldLineNum > 0 := hd d (by simp)
    cases adds with
    | nil =>
      obtain ⟨h1, h2, h3⟩ := ih [] hd' (by simp)
      refine ⟨?_, ?_, ?_⟩ <;>
        simp only [alignChanges, List.countP_cons] at h1 h2 h3 ⊢ <;>
        simp_all [oldPresent, newPresent, bothCtxHdr]
    | cons a as =>
      have ha' : ∀ x ∈ as, x.content ≠ [] ∨ x.newLineNum > 0 := by
        intro x hx; exact ha x (by simp [hx])
      have hha : a.content ≠ [] ∨ a.newLineNum > 0 := ha a (by simp)
      obtain ⟨h1, h2, h3⟩ := ih as hd' ha'
      refine ⟨?_, ?_, ?_⟩ <;>
        simp only [alignChanges, List.countP_cons] at h1 h2 h3 ⊢ <;>
        simp_all [oldPresent, newPresent, bothCtxHdr]

/-- Counting one hunk's aligned rows, with the two pending buffers made
explicit: present old sides plus present new sides equal the lines consumed
plus the rows counted twice (both sides present as Context/Header). -/
theorem convertLines_counts :
    ∀ (lines dels adds : List DiffLine),
      (∀ l ∈ lines, lineVisible l) →
      (∀ d ∈ dels, d.content ≠ [] ∨ d.oldLineNum > 0) →
      (∀ a ∈ adds, a.content ≠ [] ∨ a.newLineNum > 0) →
      (convertLines lines dels adds).countP oldPresent +
        (convertLines lines dels adds).countP newPresent =
      lines.length + dels.length + adds.length +
        (convertLines lines dels adds).countP bothCtxHdr := by
  intro lines
  induction lines with
  | nil =>
    intro dels adds _ hd ha
    obtain ⟨h1, h2, h3⟩ := alignChanges_counts dels adds hd ha
    simp only [convertLines, h1, h2, h3, List.length_nil]
    omega
  | cons l rest ih =>
    intro dels adds hv hd ha
    have hv' : ∀ x ∈ rest, lineVisible x := by
      intro x hx; exact hv x (by simp [hx])
    have hvl : lineVisible l := hv l (by simp)
    obtain ⟨t, c, o, n⟩ := l
    cases t with
    | header =>
      have hc : c ≠ [] := hvl
      have hrec := ih dels adds hv' hd ha
      simp only [convertLines, countP_cons_toNat, List.length_cons]
      have hop : oldPresent ⟨0, c, .header, 0, c, .header⟩ = true := by
        simp [oldPresent, hc]
      have hnp : newPresent ⟨0, c, .header, 0, c, .header⟩ = true := by
        simp [newPresent, hc]
      have hbp : bothCtxHdr ⟨0, c, .header, 0, c, .header⟩ = true := by
        simp [bothCtxHdr, oldPresent, newPresent, hc]
      rw [hop, hnp, hbp]
      simp only [Bool.toNat_true]
      omega
    | context =>
      have hvis : c ≠ [] ∨ o > 0 ∨ n > 0 := hvl
      obtain ⟨a1, a2, a3⟩ := alignChanges_counts dels adds hd ha
      have hrec := ih [] [] hv' (by simp) (by simp)
      simp only [convertLines, List.countP_append, countP_cons_toNat,
        List.length_cons, a1, a2, a3]
      have hbp : bothCtxHdr ⟨o, c, .context, n, c, .context⟩ =
          (oldPresent ⟨o, c, .context, n, c, .context⟩ &&
           newPresent ⟨o, c, .context, n, c, .context⟩) := by
        simp [bothCtxHdr]
      have hor : oldPresent ⟨o, c, .context, n, c, .context⟩ = true ∨
          newPresent ⟨o, c, .context, n, c, .context⟩ = true := by
        rcases hvis with h | h | h
        · left; simp [oldPresent, h]
        · left; simp [oldPresent, h]
        · right; simp [newPresent, h]
      rw [hbp]
      simp only [List.length_nil] at hrec
      cases hpo : oldPresent ⟨o, c, .context, n, c, .context⟩ <;>
        cases hpn : newPresent ⟨o, c, .context, n, c, .context⟩
      · rw [hpo, hpn] at hor; simp at hor
      · simp only [Bool.false_and, Bool.toNat_true, Bool.toNat_false]
        omega
      · simp only [Bool.true_and, Bool.toNat_true, Bool.toNat_false]
        omega
      · simp only [Bool.true_and, Bool.toNat_true]
        omega
    | deletion =>
      have hvis : c ≠ [] ∨ o > 0 := hvl
      have hd2 : ∀ x ∈ dels ++ [(⟨.deletion, c, o, n⟩ : DiffLine)],
          x.content ≠ [] ∨ x.oldLineNum > 0 := by
        intro x hx
        rcases List.mem_append.mp hx with h | h
        · exact hd x h
        · simp only [List.mem_singleton] at h; subst h; exact hvis
      have hrec := ih (dels ++ [⟨.deletion, c, o, n⟩]) adds hv' hd2 ha
      simp only [convertLines]
      simp only [List.length_append, List.length_cons, List.length_nil] at hrec ⊢
      omega
    | addition =>
      have hvis : c ≠ [] ∨ n > 0 := hvl
      have ha2 : ∀ x ∈ adds ++ [(⟨.addition, c, o, n⟩ : DiffLine)],
          x.content ≠ [] ∨ x.newLineNum > 0 := by
        intro x hx
        rcases List.mem_append.mp hx with h | h
        · exact ha x h
        · simp only [List.mem_singleton] at h; subst h; exact hvis
      have hrec := ih dels (adds ++ [⟨.addition, c, o, n⟩]) hv' hd ha2
      simp only [convertLines]
      simp only [List.length_append, List.length_cons, List.length_nil] at hrec ⊢
      omega

/-- C3, amended: for every hunk all of whose lines are visible on the sides
they occupy (nonempty content or a positive line number there — true of
all hunks parsed from headers with positive start values), the aligned rows
satisfy the invariant: rows with a nonempty old side plus rows with a
nonempty new side minus rows with both sides present as Context/Header
equals the number of lines of the hunk, header included.  The restriction
is forced by `c3_invariant_counterexample`. -/
theorem c3_invariant_amended (h : DiffHunk)
    (hv : ∀ l ∈ h.lines, lineVisible l) :
    alignBalance (convertHunk h) = h.lines.length := by
  have key := convertLines_counts h.lines [] [] hv (by simp) (by simp)
  unfold alignBalance convertHunk
  simp only [List.length_nil] at key
  omega

/-- C3, witness: the invariant quantity for the scenario hunk equals its
line count, 8. -/
theorem c3_invariant_amended_witness :
    alignBalance (convertHunk scenarioHunk) = scenarioHunk.lines.length :=
  c3_invariant_amended scenarioHunk (by decide)

/-- Go string order is total. -/
theorem strLeb_total : ∀ a b : GoStr, strLeb a b = true ∨ strLeb b a = true := by
  intro a
  induction a with
  | nil => intro b; left; simp [strLeb]
  | cons x xs ih =>
    intro b
    cases b with
    | nil => right; simp [strLeb]
    | cons y ys =>
      by_cases hxy : x = y
      · subst hxy
        simpa [strLeb] using ih ys
      · rcases lt_or_gt_of_ne hxy with h | h
        · left; simp [strLeb, hxy, h]
        · right; simp [strLeb, Ne.symm hxy, h]

/-- Go string order is transitive. -/
theorem strLeb_trans :
    ∀ a b c : GoStr, strLeb a b = true → strLeb b c = true → strLeb a c = true := by
  intro a
  induction a with
  | nil => intro b c _ _; simp [strLeb]
  | cons x xs ih =>
    intro b c hab hbc
    cases b with
    | nil => simp [strLeb] at hab
    | cons y ys =>
      cases c with
      | nil => simp [strLeb] at hbc
      | cons z zs =>
        by_cases hxy : x = y <;> by_cases hyz : y = z
        · subst hxy; subst hyz
          simp only [strLeb, if_pos rfl] at hab hbc ⊢
          exact ih ys zs hab hbc
        · subst hxy
          simp only [strLeb, if_pos rfl, if_neg hyz] at hbc ⊢
          exact hbc
        · subst hyz
          simp only [strLeb, if_pos rfl, if_neg hxy] at hab ⊢
          exact hab
        · simp only [strLeb, if_neg hxy, if_neg hyz, decide_eq_true_eq] at hab hbc
          have hxz : x < z := lt_trans hab hbc
          simp [strLeb, ne_of_lt hxz, hxz]

instance : IsTotal GoStr strLe := ⟨strLeb_total⟩

instance : IsTrans GoStr strLe := ⟨fun a b c => strLeb_trans a b c⟩

/-- Appending to a group leaves the other groups' contents unchanged. -/
theorem lookupGroup_upsert (groups : List (GoStr × List ChangedFile))
    (k : GoStr) (f : ChangedFile) (d : GoStr) :
    lookupGroup (upsertGroup groups k f) d =
      lookupGroup groups d ++ (if k = d then [f] else []) := by
  induction groups with
  | nil =>
    by_cases h : k = d <;> simp [upsertGroup, lookupGroup, h]
  | cons g rest ih =>
    obtain ⟨k', v'⟩ := g
    by_cases h1 : k' = k
    · subst h1
      simp only [upsertGroup, if_pos rfl]
      by_cases h2 : k' = d
      · subst h2; simp [lookupGroup]
      · simp [lookupGroup, h2]
    · simp only [upsertGroup, if_neg h1]
      by_cases h2 : k' = d
      · subst h2; simp [lookupGroup, Ne.symm h1]
      · simp [lookupGroup, h2, ih]

/-- Upserting adds exactly the key `k` to the group keys. -/
theorem hasGroup_upsert (groups : List (GoStr × List ChangedFile))
    (k : GoStr) (f : ChangedFile) (d : GoStr) :
    hasGroup (upsertGroup groups k f) d = (hasGroup groups d || decide (k = d)) := by
  induction groups with
  | nil => simp [upsertGroup, hasGroup]
  | cons g rest ih =>
    obtain ⟨k', v'⟩ := g
    by_cases h1 : k' = k
    · subst h1
      simp only [upsertGroup, if_pos rfl]
      by_cases h2 : k' = d <;> simp [hasGroup, h2]
    · simp only [upsertGroup, if_neg h1]
      by_cases h2 : k' = d
      · subst h2; simp [hasGroup]
      · simp [hasGroup, h2, ih]

/-- After the grouping fold, a directory's group holds exactly the input
files with that key, in input order. -/
theorem lookupGroup_fold :
    ∀ (files : List ChangedFile) (acc : List GoStr × List (GoStr × List ChangedFile))
      (d : GoStr),
      lookupGroup ((files.foldl folderStep acc).2) d =
        lookupGroup acc.2 d ++ files.filter (fun f => decide (dirKey f = d)) := by
  intro files
  induction files with
  | nil => intro acc d; simp
  | cons f fs ih =>
    intro acc d
    rw [List.foldl_cons, ih]
    show lookupGroup (upsertGroup acc.2 (dirKey f) f) d ++ _ = _
    rw [lookupGroup_upsert]
    by_cases h : dirKey f = d <;> simp [h, List.filter_cons]

/-- After the grouping fold, the group keys are the keys of the inputs. -/
theorem hasGroup_fold :
    ∀ (files : List ChangedFile) (acc : List GoStr × List (GoStr × List ChangedFile))
      (d : GoStr),
      hasGroup ((files.foldl folderStep acc).2) d =
        (hasGroup acc.2 d || files.any (fun f => decide (dirKey f = d))) := by
  intro files
  induction files with
  | nil => intro acc d; simp
  | cons f fs ih =>
    intro acc d
    rw [List.foldl_cons, ih]
    show (hasGroup (upsertGroup acc.2 (dirKey f) f) d || _) = _
    rw [hasGroup_upsert]
    by_cases h : dirKey f = d <;> simp [h, Bool.or_assoc]

/-- The grouping fold keeps `folderOrder` and the group keys in sync. -/
theorem folderOrder_inv :
    ∀ (files : List ChangedFile) (acc : List GoStr × List (GoStr × List ChangedFile)),
      (∀ k, hasGroup acc.2 k = true ↔ k ∈ acc.1) →
      ∀ k, hasGroup ((files.foldl folderStep acc).2) k = true ↔
        k ∈ (files.foldl folderStep acc).1 := by
  intro files
  induction files with
  | nil => intro acc hinv k; exact hinv k
  | cons f fs ih =>
    intro acc hinv k
    rw [List.foldl_cons]
    refine ih (folderStep acc f) ?_ k
    intro k'
    show hasGroup (upsertGroup acc.2 (dirKey f) f) k' = true ↔
      k' ∈ (if hasGroup acc.2 (dirKey f) then acc.1 else acc.1 ++ [dirKey f])
    rw [hasGroup_upsert]
    by_cases hk : dirKey f = k'
    · subst hk
      by_cases hh : hasGroup acc.2 (dirKey f)
      · simp [hh, (hinv (dirKey f)).mp hh]
      · simp [hh]
    · by_cases hh : hasGroup acc.2 (dirKey f) <;>
        simp [hh, hk, hinv k', Ne.symm hk]

/-- A directory key is in the folder order exactly when one of the files
lives in it. -/
theorem mem_folderOrder (files : List ChangedFile) (k : GoStr) :
    k ∈ (files.foldl folderStep ([], [])).1 ↔
      files.any (fun f => decide (dirKey f = k)) = true := by
  have h1 := folderOrder_inv files ([], []) (by intro k'; simp [hasGroup]) k
  have h2 := hasGroup_fold files ([], []) k
  simp only [hasGroup, Bool.false_or] at h2
  rw [← h1, h2]

/-- buildFolderView, characterized: the sorted first-seen directory keys,
each followed by the input files of that directory in input order. -/
theorem buildFolderView_eq (files : List ChangedFile) :
    buildFolderView files =
      (((files.foldl folderStep ([], [])).1.insertionSort strLe).map
        (fun d => headerItem d ::
          (files.filter (fun f => decide (dirKey f = d))).map fileItem)).flatten := by
  unfold buildFolderView
  dsimp only
  congr 1
  apply List.map_congr_left
  intro d _
  rw [lookupGroup_fold files ([], []) d]
  simp [lookupGroup]

/-- The file entries of a folder view contribute no header labels. -/
theorem headerPaths_fileItems (l : List ChangedFile) :
    headerPaths (l.map fileItem) = [] := by
  induction l with
  | nil => simp [headerPaths]
  | cons f fs ih => simp [headerPaths, fileItem, List.filter_cons]

/-- headerPaths distributes over append. -/
theorem headerPaths_append (a b : List DisplayItem) :
    headerPaths (a ++ b) = headerPaths a ++ headerPaths b := by
  simp [headerPaths, List.filter_append]

/-- One directory group contributes exactly its own header label. -/
theorem headerPaths_group (d : GoStr) (l : List ChangedFile) :
    headerPaths (headerItem d :: l.map fileItem) = [d] := by
  have h2 := headerPaths_fileItems l
  simp only [headerPaths] at h2 ⊢
  rw [List.filter_cons_of_pos (by simp [headerItem]), List.map_cons, h2]
  simp [headerItem]

/-- The header labels of the folder view are exactly the sorted keys. -/
theorem headerPaths_buildFolderView (files : List ChangedFile) :
    headerPaths (buildFolderView files) =
      (files.foldl folderStep ([], [])).1.insertionSort strLe := by
  rw [buildFolderView_eq]
  generalize (files.foldl folderStep ([], [])).1.insertionSort strLe = ds
  induction ds with
  | nil => simp [headerPaths]
  | cons d rest ih =>
    rw [List.map_cons, List.flatten_cons, headerPaths_append, ih, headerPaths_group]
    rfl

/-- C5, amended: in folder grouping mode the directory groups are emitted in
ascending lexicographic order of directory path, and within each directory
group the file entries are emitted in input order (the order of the file
list), not sorted by name — the within-group sorting part of the claim is
refuted by `c5_folder_order_counterexample`. -/
theorem c5_folder_order_amended (files : List ChangedFile) :
    List.Sorted strLe (headerPaths (buildFolderView files)) ∧
    buildFolderView files =
      ((headerPaths (buildFolderView files)).map
        (fun d => headerItem d ::
          (files.filter (fun f => decide (dirKey f = d))).map fileItem)).flatten := by
  constructor
  · rw [headerPaths_buildFolderView]
    exact List.sorted_insertionSort strLe _
  · rw [headerPaths_buildFolderView]
    exact buildFolderView_eq files

/-- C6, amended: buildFolderView takes no expandedPaths set and keeps no
collapse state — every input file's entry always appears in the output,
under its directory's header. -/
theorem c6_no_collapse_amended (files : List ChangedFile) (f : ChangedFile)
    (hf : f ∈ files) : fileItem f ∈ buildFolderView files := by
  rw [buildFolderView_eq files]
  apply List.mem_flatten.mpr
  refine ⟨headerItem (dirKey f) ::
    (files.filter (fun g => decide (dirKey g = dirKey f))).map fileItem, ?_, ?_⟩
  · apply List.mem_map.mpr
    refine ⟨dirKey f, ?_, rfl⟩
    apply (List.Perm.mem_iff (List.perm_insertionSort strLe _)).mpr
    apply (mem_folderOrder files (dirKey f)).mpr
    apply List.any_eq_true.mpr
    exact ⟨f, hf, by simp⟩
  · apply List.mem_cons_of_mem
    apply List.mem_map.mpr
    exact ⟨f, List.mem_filter.mpr ⟨hf, by simp⟩, rfl⟩

/-- C6, witness: a concrete file's entry is in its folder view. -/
theorem c6_no_collapse_amended_witness :
    fileItem fileDA ∈ buildFolderView [fileDB, fileDA] :=
  c6_no_collapse_amended [fileDB, fileDA] fileDA (by decide)

/-- Indices below the length are occupied. -/
theorem get?_of_lt (items : List DisplayItem) (j : Nat) (h : j < items.length) :
    ∃ a, items.get? j = some a := by
  cases hg : items.get? j with
  | none => rw [List.get?_eq_none] at hg; omega
  | some a => exact ⟨a, rfl⟩

/-- itemIsHeaderAt reads the item's header flag at an in-range index. -/
theorem itemIsHeaderAt_eq (items : List DisplayItem) (i : Int) (hi : 0 ≤ i)
    (a : DisplayItem) (h : items.get? i.toNat = some a) :
    itemIsHeaderAt items i = a.isHeader := by
  unfold itemIsHeaderAt
  rw [if_neg (by omega : ¬ i < 0), h]

/-- The adjacency predicate, read at an index pair. -/
theorem noAdjHdrB_get :
    ∀ (items : List DisplayItem) (j : Nat) (a b : DisplayItem),
      noAdjHdrB items = true → items.get? j = some a →
      items.get? (j + 1) = some b →
      a.isHeader = false ∨ b.isHeader = false := by
  intro items
  induction items with
  | nil => intro j a b _ h1 _; simp [List.get?] at h1
  | cons x rest ih =>
    intro j a b h h1 h2
    cases rest with
    | nil =>
      cases j with
      | zero => simp [List.get?] at h2
      | succ j2 => simp [List.get?] at h1
    | cons y rest2 =>
      rw [noAdjHdrB, Bool.and_eq_true] at h
      obtain ⟨h3, h4⟩ := h
      cases j with
      | zero =>
        simp only [List.get?] at h1 h2
        injection h1 with h1
        injection h2 with h2
        subst h1; subst h2
        cases hx : x.isHeader with
        | false => exact Or.inl rfl
        | true =>
          cases hy : y.isHeader with
          | false => exact Or.inr rfl
          | true => rw [hx, hy] at h3; simp at h3
      | succ j2 =>
        exact ih j2 a b h4 (by simpa using h1) (by simpa using h2)

/-- The last-item flag agrees with itemIsHeaderAt at the last index. -/
theorem lastIsHeaderB_eq (items : List DisplayItem) (hne : items ≠ []) :
    lastIsHeaderB items = itemIsHeaderAt items ((items.length : Int) - 1) := by
  have hlen : 0 < items.length := List.length_pos.mpr hne
  unfold lastIsHeaderB itemIsHeaderAt
  rw [if_neg (by omega : ¬ ((items.length : Int) - 1 < 0))]
  have ht : ((items.length : Int) - 1).toNat = items.length - 1 := by omega
  rw [ht, List.get?_eq_getElem?, ← List.getLast?_eq_getElem?]

/-- The first-item flag agrees with itemIsHeaderAt at index 0. -/
theorem headIsHeaderB_eq (items : List DisplayItem) :
    headIsHeaderB items = itemIsHeaderAt items 0 := by
  unfold headIsHeaderB itemIsHeaderAt
  rw [if_neg (by omega : ¬ (0 : Int) < 0), show (0 : Int).toNat = 0 from rfl,
    List.get?_zero]

/-- The clamped cursor lands in range when the list is nonempty. -/
theorem goClampCursor_bounds (n c : Int) (hn : 1 ≤ n) :
    0 ≤ goClampCursor n c ∧ goClampCursor n c < n := by
  unfold goClampCursor
  dsimp only
  split_ifs <;> omega

/-- C7, amended: one-step cursor movement skips a header only when the skip
target stays in range, so the selection is guaranteed non-header only under
boundary conditions: moving down never selects a header when no two headers
are adjacent and the last item is not a header; moving up never selects a
header when no two headers are adjacent and the first item is not a header
(in the grouped views the first item is a header, and moving up onto it
leaves it selected — `c7_header_skip_counterexample`).  After a query
change or view-mode switch, findFirstFile re-resolves the selection to the
first non-header item whenever one exists. -/
theorem c7_header_skip_amended :
    (∀ (items : List DisplayItem) (cursor : Int),
      items ≠ [] → noAdjHdrB items = true → lastIsHeaderB items = false →
      itemIsHeaderAt items (moveCursor items cursor 1) = false) ∧
    (∀ (items : List DisplayItem) (cursor : Int),
      items ≠ [] → noAdjHdrB items = true → headIsHeaderB items = false →
      itemIsHeaderAt items (moveCursor items cursor (-1)) = false) ∧
    (∀ (items : List DisplayItem) (i : Nat),
      findFirstFileIdx items = some i →
      ∃ it, items.get? i = some it ∧ it.isHeader = false) := by
  refine ⟨?_, ?_, ?_⟩
  · intro items cursor hne hadj hlast
    have hlen : 0 < items.length := List.length_pos.mpr hne
    have hn1 : (1 : Int) ≤ (items.length : Int) := by omega
    obtain ⟨hc0, hcn⟩ := goClampCursor_bounds (items.length) (cursor + 1) hn1
    unfold moveCursor
    dsimp only
    set c2 := goClampCursor (items.length) (cursor + 1) with hc2
    by_cases hh : itemIsHeaderAt items c2 = true
    · rw [if_pos ⟨hc0, hcn, hh⟩]
      by_cases hfw : c2 < (items.length : Int) - 1
      · rw [if_pos ⟨by omega, hfw⟩]
        obtain ⟨a, ha⟩ := get?_of_lt items c2.toNat (by omega)
        obtain ⟨b, hb⟩ := get?_of_lt items (c2.toNat + 1) (by omega)
        have hah : a.isHeader = true := by
          rw [itemIsHeaderAt_eq items c2 hc0 a ha] at hh; exact hh
        have hab := noAdjHdrB_get items c2.toNat a b hadj ha hb
        have hbf : b.isHeader = false := by
          rcases hab with h | h
          · rw [hah] at h; exact absurd h (by simp)
          · exact h
        have ht : (c2 + 1).toNat = c2.toNat + 1 := by omega
        rw [itemIsHeaderAt_eq items (c2 + 1) (by omega) b (by rw [ht]; exact hb)]
        exact hbf
      · rw [if_neg (by omega : ¬ ((1 : Int) > 0 ∧ c2 < (items.length : Int) - 1)),
          if_neg (by omega : ¬ ((1 : Int) < 0 ∧ c2 > 0))]
        have hc2v : c2 = (items.length : Int) - 1 := by omega
        rw [lastIsHeaderB_eq items hne, ← hc2v] at hlast
        rw [hlast] at hh
        exact absurd hh (by simp)
    · rw [if_neg (by intro hcon; exact hh hcon.2.2)]
      cases hbb : itemIsHeaderAt items c2
      · rfl
      · exact absurd hbb hh
  · intro items cursor hne hadj hhead
    have hlen : 0 < items.length := List.length_pos.mpr hne
    have hn1 : (1 : Int) ≤ (items.length : Int) := by omega
    obtain ⟨hc0, hcn⟩ := goClampCursor_bounds (items.length) (cursor + (-1)) hn1
    unfold moveCursor
    dsimp only
    set c2 := goClampCursor (items.length) (cursor + (-1)) with hc2
    by_cases hh : itemIsHeaderAt items c2 = true
    · rw [if_pos ⟨hc0, hcn, hh⟩]
      rw [if_neg (by omega : ¬ ((-1 : Int) > 0 ∧ c2 < (items.length : Int) - 1))]
      by_cases hbw : c2 > 0
      · rw [if_pos (⟨by omega, hbw⟩ : (-1 : Int) < 0 ∧ c2 > 0)]
        obtain ⟨b, hb⟩ := get?_of_lt items (c2 - 1).toNat (by omega)
        obtain ⟨a, ha⟩ := get?_of_lt items c2.toNat (by omega)
        have hah : a.isHeader = true := by
          rw [itemIsHeaderAt_eq items c2 hc0 a ha] at hh; exact hh
        have hsucc : (c2 - 1).toNat + 1 = c2.toNat := by omega
        have hab := noAdjHdrB_get items (c2 - 1).toNat b a hadj hb
          (by rw [hsucc]; exact ha)
        have hbf : b.isHeader = false := by
          rcases hab with h | h
          · exact h
          · rw [hah] at h; exact absurd h (by simp)
        rw [itemIsHeaderAt_eq items (c2 - 1) (by omega) b hb]
        exact hbf
      · rw [if_neg (by omega : ¬ ((-1 : Int) < 0 ∧ c2 > 0))]
        have hc2v : c2 = 0 := by omega
        rw [headIsHeaderB_eq items, ← hc2v] at hhead
        rw [hhead] at hh
        exact absurd hh (by simp)
    · rw [if_neg (by intro hcon; exact hh hcon.2.2)]
      cases hbb : itemIsHeaderAt items c2
      · rfl
      · exact absurd hbb hh
  · intro items
    induction items with
    | nil => intro i h; simp [findFirstFileIdx] at h
    | cons it rest ih =>
      intro i h
      unfold findFirstFileIdx at h
      by_cases hit : it.isHeader
      · rw [if_pos hit] at h
        cases hfind : findFirstFileIdx rest with
        | none => rw [hfind] at h; exact Option.noConfusion h
        | some j =>
          rw [hfind] at h
          rw [show (some j).map (fun x => x + 1) = some (j + 1) from rfl] at h
          injection h with h
          obtain ⟨b, hb, hbf⟩ := ih j hfind
          exact ⟨b, by rw [← h]; simpa using hb, hbf⟩
      · rw [if_neg hit] at h
        injection h with h
        exact ⟨it, by rw [← h]; rfl, by simpa using hit⟩

/-- C7, witness: on a header-then-two-files list, moving down from the
header's position selects a non-header, and findFirstFile resolves to the
first non-header item. -/
theorem c7_header_skip_amended_witness :
    itemIsHeaderAt [headerItem (gs "d"), fileItem fileDA, fileItem fileDB]
      (moveCursor [headerItem (gs "d"), fileItem fileDA, fileItem fileDB] 0 1)
      = false ∧
    (∃ it, [headerItem (gs "d"), fileItem fileDA].get? 1 = some it ∧
      it.isHeader = false) :=
  ⟨c7_header_skip_amended.1 [headerItem (gs "d"), fileItem fileDA, fileItem fileDB]
      0 (by decide) (by decide) (by decide),
   c7_header_skip_amended.2.2 [headerItem (gs "d"), fileItem fileDA] 1 rfl⟩

/-- C8, amended: parse never fails — it returns a FileDiff and a nil error
on every input, malformed ones included; and when the hunk-header scans
assign no count operand (each pattern fails before its count positions),
the explicit counts default to 1.  When a failed scan does assign a count,
that value is kept instead of the default
(`c8_default_counterexample`). -/
theorem c8_parse_total_amended :
    (∀ s : GoStr, ∃ d : FileDiff, parseDiff s = Except.ok d) ∧
    (∀ line : GoStr,
      (sscanfInts hunkFmt1 line).length ≤ 1 →
      (sscanfInts hunkFmt2 line).length ≤ 2 →
      (sscanfInts hunkFmt3 line).length ≤ 1 →
      (parseHunkFields line).2.1 = 1 ∧ (parseHunkFields line).2.2.2 = 1) := by
  constructor
  · intro s
    exact ⟨_, rfl⟩
  · intro line h1 h2 h3
    have e1 : (sscanfInts hunkFmt1 line).getD 1 0 = 0 :=
      List.getD_eq_default _ _ (by omega)
    have e3 : (sscanfInts hunkFmt1 line).getD 3 0 = 0 :=
      List.getD_eq_default _ _ (by omega)
    have e2 : ∀ x : Int, (sscanfInts hunkFmt2 line).getD 2 x = x := fun x =>
      List.getD_eq_default _ _ (by omega)
    have e4 : ∀ x : Int, (sscanfInts hunkFmt3 line).getD 1 x = x := fun x =>
      List.getD_eq_default _ _ (by omega)
    unfold parseHunkFields
    dsimp only
    rw [e1, if_pos rfl]
    dsimp only
    rw [e3, e2, if_pos rfl]
    dsimp only
    rw [e4]
    exact ⟨rfl, rfl⟩

/-- C8, witness: total on the junk input `@@ junk`, whose scans assign
nothing, so both counts default to 1. -/
theorem c8_parse_total_amended_witness :
    (parseHunkFields (gs "@@ junk")).2.1 = 1 ∧
    (parseHunkFields (gs "@@ junk")).2.2.2 = 1 :=
  c8_parse_total_amended.2 (gs "@@ junk") (by decide) (by decide) (by decide)

/-- C9, amended: a parsed hunk's NewCount is never 0 (the defaulting branch
always replaces a zero), but OldCount can end up 0: that happens exactly
when the NewCount-defaulting branch rescans the header with
`@@ -%d,%d +%d @@` and that scan's second operand is an explicit 0, as in
`@@ -5,0 +7,0 @@` (`c9_zero_count_counterexample`).  Counts can also be
negative when the header carries negative numbers, so "at least 1" holds
only for headers with non-negative fields. -/
theorem c9_count_amended (line : GoStr) :
    (parseHunkFields line).2.2.2 ≠ 0 ∧
    ((parseHunkFields line).2.1 = 0 →
      (sscanfInts hunkFmt3 line).get? 1 = some 0) := by
  unfold parseHunkFields
  dsimp only
  by_cases hoc : (sscanfInts hunkFmt1 line).getD 1 0 = 0
  · rw [if_pos hoc]
    dsimp only
    by_cases hnc :
        (sscanfInts hunkFmt2 line).getD 2 ((sscanfInts hunkFmt1 line).getD 3 0) = 0
    · rw [if_pos hnc]
      dsimp only
      refine ⟨by decide, ?_⟩
      intro h0
      cases hget : (sscanfInts hunkFmt3 line).get? 1 with
      | none =>
        have : (sscanfInts hunkFmt3 line).getD 1 1 = 1 := by
          show ((sscanfInts hunkFmt3 line).get? 1).getD 1 = 1
          rw [hget]; rfl
        rw [this] at h0
        exact absurd h0 (by decide)
      | some v =>
        have : (sscanfInts hunkFmt3 line).getD 1 1 = v := by
          show ((sscanfInts hunkFmt3 line).get? 1).getD 1 = v
          rw [hget]; rfl
        rw [this] at h0
        rw [h0]
    · rw [if_neg hnc]
      dsimp only
      refine ⟨hnc, ?_⟩
      intro h0
      exact absurd h0 (by decide)
  · rw [if_neg hoc]
    dsimp only
    by_cases hnc : (sscanfInts hunkFmt1 line).getD 3 0 = 0
    · rw [if_pos hnc]
      dsimp only
      refine ⟨by decide, ?_⟩
      intro h0
      cases hget : (sscanfInts hunkFmt3 line).get? 1 with
      | none =>
        have heq : (sscanfInts hunkFmt3 line).getD 1
            ((sscanfInts hunkFmt1 line).getD 1 0) =
            (sscanfInts hunkFmt1 line).getD 1 0 := by
          show ((sscanfInts hunkFmt3 line).get? 1).getD _ = _
          rw [hget]; rfl
        rw [heq] at h0
        exact absurd h0 hoc
      | some v =>
        have heq : (sscanfInts hunkFmt3 line).getD 1
            ((sscanfInts hunkFmt1 line).getD 1 0) = v := by
          show ((sscanfInts hunkFmt3 line).get? 1).getD _ = v
          rw [hget]; rfl
        rw [heq] at h0
        rw [h0]
    · rw [if_neg hnc]
      dsimp only
      exact ⟨hnc, fun h0 => absurd h0 hoc⟩

/-- C9, witness: on `@@ -5,0 +7,0 @@` the NewCount is nonzero and, since
OldCount comes out 0 there, the rescanned second operand is the explicit
0. -/
theorem c9_count_amended_witness :
    (parseHunkFields (gs "@@ -5,0 +7,0 @@")).2.2.2 ≠ 0 ∧
    (sscanfInts hunkFmt3 (gs "@@ -5,0 +7,0 @@")).get? 1 = some 0 :=
  ⟨(c9_count_amended (gs "@@ -5,0 +7,0 @@")).1,
   (c9_count_amended (gs "@@ -5,0 +7,0 @@")).2 (by decide)⟩

/-- A line with the `+++` prefix does not have the `---` prefix. -/
theorem not_minus_of_plus {line : GoStr}
    (h : strHasPre (gs "+++") line = true) :
    strHasPre (gs "---") line = false := by
  cases line with
  | nil => simp [gs, strHasPre] at h
  | cons c rest =>
    simp only [gs, strHasPre, Bool.and_eq_true, decide_eq_true_eq] at h
    obtain ⟨hc, _⟩ := h
    subst hc
    simp [gs, strHasPre]

/-- C10, amended: inside an open hunk, a line starting `---` (resp. `+++`)
is treated as a file-path header: it appends no DiffLine, advances no
cursor, leaves everything else unchanged, and overwrites OldPath (resp.
NewPath) with the text after the first space with a leading `a/` (resp.
`b/`) stripped; a line with no space leaves the path unchanged.  The
"text after the first space" part of the claim holds only up to the prefix
stripping (`c10_path_header_counterexample`). -/
theorem c10_path_header_amended (st : ParseState) (line : GoStr) (h : DiffHunk)
    (_hcur : st.currentHunk = some h) :
    (strHasPre (gs "---") line = true →
      (parseStep st line).currentHunk = st.currentHunk ∧
      (parseStep st line).oldLineNum = st.oldLineNum ∧
      (parseStep st line).newLineNum = st.newLineNum ∧
      (parseStep st line).hunks = st.hunks ∧
      (parseStep st line).newPath = st.newPath ∧
      (parseStep st line).oldPath =
        (match splitFirstSpace line with
         | some p => strTrimPre (gs "a/") p.2
         | none => st.oldPath)) ∧
    (strHasPre (gs "+++") line = true →
      (parseStep st line).currentHunk = st.currentHunk ∧
      (parseStep st line).oldLineNum = st.oldLineNum ∧
      (parseStep st line).newLineNum = st.newLineNum ∧
      (parseStep st line).hunks = st.hunks ∧
      (parseStep st line).oldPath = st.oldPath ∧
      (parseStep st line).newPath =
        (match splitFirstSpace line with
         | some p => strTrimPre (gs "b/") p.2
         | none => st.newPath)) := by
  constructor
  · intro hpre
    unfold parseStep
    rw [if_pos hpre]
    cases hsp : splitFirstSpace line with
    | some p => simp [hsp]
    | none => simp [hsp]
  · intro hpre
    unfold parseStep
    rw [if_neg (by simp [not_minus_of_plus hpre]), if_pos hpre]
    cases hsp : splitFirstSpace line with
    | some p => simp [hsp]
    | none => simp [hsp]

/-- C10, witness: the in-hunk line `--- a/zz` rewrites OldPath to `zz` and
touches nothing else. -/
theorem c10_path_header_amended_witness :
    (parseStep { currentHunk := some {} } (gs "--- a/zz")).currentHunk =
      some ({} : DiffHunk) ∧
    (parseStep { currentHunk := some {} } (gs "--- a/zz")).oldLineNum = 0 ∧
    (parseStep { currentHunk := some {} } (gs "--- a/zz")).newLineNum = 0 ∧
    (parseStep { currentHunk := some {} } (gs "--- a/zz")).hunks = [] ∧
    (parseStep { currentHunk := some {} } (gs "--- a/zz")).newPath = [] ∧
    (parseStep { currentHunk := some {} } (gs "--- a/zz")).oldPath = gs "zz" :=
  (c10_path_header_amended { currentHunk := some {} } (gs "--- a/zz") {} rfl).1
    (by decide)

end GitDiffs
